import Mathlib

/-!
Shallow embedding of the training core of the tss-ml repository
(src/train/step.py, src/train/trainer.py and the legacy loop in
src/train.py), together with proofs settling the frozen claims about it.

Modelling conventions, used throughout:

* jnp float arrays are modelled over `ℚ` (exact arithmetic).  The float value
  NaN is modelled by `Option ℚ` (`none` = NaN) where a claim depends on
  missing values.  Divergences of `ℚ`'s total division (`x / 0 = 0`) from
  IEEE floats (`x / 0 = ±∞`, `0 / 0 = NaN`) are confined by explicit
  hypotheses or noted next to the definition concerned.
* 2-d arrays of shape (batch, targets) are stored column-major, as the list
  of per-target columns: elementwise jnp operations are nested `List.map`s
  and `List.zipWith`s, and `jax.vmap(f, in_axes=(1, 1, 1))` is a map over
  the outer (per-target) list.
* Python exceptions (`raise ValueError`, `raise RuntimeError`, the `NameError`
  of an unbound name) are modelled with `Except`.
* `clip_gradients` involves a square root, so it alone is modelled over `ℝ`.
* External collaborators (jax's PRNG `split`, the optax optimizer, the model
  factory `models.make`, the dataloader) are parameters of the definitions
  that use them, constrained only by their documented interfaces.
-/

namespace TssML

/-- Embedding of `jnp.mean(vals, where := mask)`: the mean of the entries of `vals`
selected by `mask`; `none` models the NaN produced when nothing is
selected. -/
def meanWhere (vals : List ℚ) (mask : List Bool) : Option ℚ :=
  let sel := ((vals.zip mask).filter (fun p => p.2)).map (fun p => p.1)
  if sel.length = 0 then none else some (sel.sum / sel.length)

/-- Plain `jnp.mean`; `none` models the NaN mean of an empty array. -/
def meanAll (vals : List ℚ) : Option ℚ :=
  if vals.length = 0 then none else some (vals.sum / vals.length)

/-- Embedding of `jnp.mean` of an array that the caller asserts nonempty, as a bare
rational (`l.sum / l.length`; an empty list gives `0` here where floats give
NaN — every theorem using it assumes a nonempty batch). -/
def listMean (l : List ℚ) : ℚ := l.sum / l.length

/-- Ternary zip: used for `jax.vmap(loss_fn, in_axes=(1, 1, 1))` and for the
three-column arithmetic of `flux_agreement`. -/
def zipWith3 (f : α → β → γ → δ) (as : List α) (bs : List β) (cs : List γ) :
    List δ :=
  (as.zip (bs.zip cs)).map (fun p => f p.1 p.2.1 p.2.2)

/-- step.py `mse_loss`: `jnp.mean(jnp.square(y - y_pred), where := mask)`. -/
def mse_loss (y y_pred : List ℚ) (mask : List Bool) : Option ℚ :=
  meanWhere (List.zipWith (fun a b => (a - b) ^ 2) y y_pred) mask

/-- step.py `mae_loss`: `jnp.mean(jnp.abs(y - y_pred), where := mask)`. -/
def mae_loss (y y_pred : List ℚ) (mask : List Bool) : Option ℚ :=
  meanWhere (List.zipWith (fun a b => |a - b|) y y_pred) mask

/-- step.py `huber_loss` with its default `huber_delta = 1.0` (the call site
in `compute_loss` never passes a delta). -/
def huber_loss (y y_pred : List ℚ) (mask : List Bool) (huber_delta : ℚ) :
    Option ℚ :=
  let residual := List.zipWith (fun a b => a - b) y y_pred
  meanWhere
    (residual.map (fun r =>
      if |r| ≤ huber_delta then (1 / 2) * r ^ 2
      else huber_delta * (|r| - (1 / 2) * huber_delta))) mask

/-- step.py `flux_agreement`.  `y_pred` is the (column-major) de-normalized
prediction matrix, `target_list` the model's target names.  The `ValueError`
raised when one of `ssc`, `flux`, `usgs_q` is missing is an `Except.error`.
`1.102` is the exact rational `1102 / 1000`.  The row-wise relative error is
`((ssc * q) - flux) / ((ssc * q + flux) / 2)`; for a row where both numerator
and denominator are zero the float code yields NaN whereas `ℚ` yields `0`, so
theorems about this definition carry a nonzero-denominator hypothesis. -/
def flux_agreement (y_pred : List (List ℚ)) (target_list : List String) :
    Except String ℚ :=
  if ["ssc", "flux", "usgs_q"].any (fun t => !(target_list.contains t)) then
    .error "Must predict at least ssc, flux, and usgs_q when using flux agreement regularization."
  else
    let ssc := (y_pred.getD (target_list.indexOf "ssc") []).map
      (fun v => v / 1000000)
    let flux := (y_pred.getD (target_list.indexOf "flux") []).map
      (fun v => v / (1102 / 1000) / 1000)
    let q := (y_pred.getD (target_list.indexOf "usgs_q") []).map
      (fun v => v * (24 * 3600 * 1000))
    let rel_error := zipWith3
      (fun s f qq => ((s * qq) - f) / ((s * qq + f) / 2)) ssc flux q
    .ok (listMean (rel_error.map (fun e => e ^ 2)))

/-- The `if loss_name == "mse" ... else raise ValueError` chain of
step.py `compute_loss`, selecting the masked per-column loss function. -/
def loss_fn_of (loss_name : String) :
    Except String (List ℚ → List ℚ → List Bool → Option ℚ) :=
  if loss_name = "mse" then .ok mse_loss
  else if loss_name = "mae" then .ok mae_loss
  else if loss_name = "huber" then .ok (fun a b m => huber_loss a b m 1)
  else .error "Invalid loss function name."

/-- The tail of step.py `compute_loss`: zero-fill NaN per-target losses,
weight each target by `(not-NaN) * target_weight`, and take
`jnp.average(target_losses, weights := target_weights)`
(= `Σ wᵢ·lᵢ / Σ wᵢ`, NaN — here `none` — when the weights sum to zero). -/
def weighted_average (target_losses : List (Option ℚ))
    (target_weights : List ℚ) : Option ℚ :=
  let valid_target_loss := target_losses.map (fun l => l.isSome)
  let zeroed := target_losses.map (fun l => l.getD 0)
  let weights := List.zipWith (fun (v : Bool) w => if v then w else 0)
    valid_target_loss target_weights
  if weights.sum = 0 then none
  else some ((List.zipWith (fun w l => w * l) weights zeroed).sum / weights.sum)

/-- step.py `compute_loss`, from the point where `y = data['y'][:, -1, :]`
and `y_pred = jax.vmap(model)(data, keys)` are in hand (the model forward
pass, the autodiff wrapper and the NaN debug print are outside the embedded
fragment; `target` is the model's `model.target` hyperparameter).  `y` is
column-major with `none` for the NaN marking a missing observation:
`valid_mask = ~jnp.isnan(y)`, and both `y` and `y_pred` are zero-filled at
invalid positions before the masked reduction. -/
def compute_loss (y : List (List (Option ℚ))) (y_pred : List (List ℚ))
    (denormalize_fn : List (List ℚ) → List (List ℚ)) (loss_name : String)
    (target_weights : List ℚ) (agreement_weight : ℚ)
    (target : List String) : Except String (Option ℚ) :=
  let valid_mask := y.map (fun col => col.map (fun v => v.isSome))
  let masked_y := y.map (fun col => col.map (fun v => v.getD 0))
  let masked_y_pred := List.zipWith
    (fun ycol pcol =>
      List.zipWith (fun (v : Option ℚ) p => if v.isSome then p else 0)
        ycol pcol) y y_pred
  Except.bind (loss_fn_of loss_name) (fun loss_fn =>
    let target_losses := zipWith3 loss_fn masked_y masked_y_pred valid_mask
    let loss := weighted_average target_losses target_weights
    if 0 < agreement_weight then
      Except.bind (flux_agreement (denormalize_fn y_pred) target)
        (fun pen => Except.ok (loss.map (fun l => l + agreement_weight * pen)))
    else Except.ok loss)

/-- Modelled from the spec: the "plain unmasked reduction of the selected
loss kind" — `mse` over a whole column with no validity mask. -/
def mse_plain (y y_pred : List ℚ) : Option ℚ :=
  meanAll (List.zipWith (fun a b => (a - b) ^ 2) y y_pred)

/-- Modelled from the spec: unmasked `mae` over a whole column. -/
def mae_plain (y y_pred : List ℚ) : Option ℚ :=
  meanAll (List.zipWith (fun a b => |a - b|) y y_pred)

/-- Modelled from the spec: unmasked `huber` over a whole column, with the
same default delta as the code. -/
def huber_plain (y y_pred : List ℚ) (huber_delta : ℚ) : Option ℚ :=
  let residual := List.zipWith (fun a b => a - b) y y_pred
  meanAll (residual.map (fun r =>
    if |r| ≤ huber_delta then (1 / 2) * r ^ 2
    else huber_delta * (|r| - (1 / 2) * huber_delta)))

/-- Modelled from the spec: loss-kind selection for the unmasked variant
(same names, same `ValueError` message). -/
def plain_loss_fn_of (loss_name : String) :
    Except String (List ℚ → List ℚ → Option ℚ) :=
  if loss_name = "mse" then .ok mse_plain
  else if loss_name = "mae" then .ok mae_plain
  else if loss_name = "huber" then .ok (fun a b => huber_plain a b 1)
  else .error "Invalid loss function name."

/-- Modelled from the spec: "the plain unmasked reduction of the selected
loss kind over the same predictions and targets" — per-target elementwise
loss averaged over the whole column with no mask and no zero-filling,
combined with the same per-target weights and the same optional agreement
term.  Claim C5 compares `compute_loss` against this. -/
def compute_loss_unmasked_spec (y : List (List ℚ)) (y_pred : List (List ℚ))
    (denormalize_fn : List (List ℚ) → List (List ℚ)) (loss_name : String)
    (target_weights : List ℚ) (agreement_weight : ℚ)
    (target : List String) : Except String (Option ℚ) :=
  Except.bind (plain_loss_fn_of loss_name) (fun loss_fn =>
    let target_losses := List.zipWith loss_fn y y_pred
    let loss := weighted_average target_losses target_weights
    if 0 < agreement_weight then
      Except.bind (flux_agreement (denormalize_fn y_pred) target)
        (fun pen => Except.ok (loss.map (fun l => l + agreement_weight * pen)))
    else Except.ok loss)

/-- The sum of squared entries across every leaf of a gradient tree
(leaves listed in traversal order, each flattened). -/
def sum_sq (grads : List (List ℝ)) : ℝ :=
  (grads.map (fun leaf => (leaf.map (fun x => x ^ 2)).sum)).sum

/-- step.py `clip_gradients`' `total_norm`: the single global L2 norm across
every leaf (sum of squared entries across all leaves, square-rooted).
Floats are idealized as reals here, hence `noncomputable`. -/
noncomputable def total_norm (grads : List (List ℝ)) : ℝ :=
  Real.sqrt (sum_sq grads)

/-- step.py `clip_gradients`' `scale = jnp.minimum(max_norm / total_norm, 1.0)`.
When `total_norm = 0` the float code gets `max_norm / 0.0 = inf` and hence
`scale = 1.0`, while real division gives `0`; the two conventions disagree
only on an all-zero gradient tree, which either scale leaves unchanged. -/
noncomputable def clip_scale (grads : List (List ℝ)) (max_norm : ℝ) : ℝ :=
  min (max_norm / total_norm grads) 1

/-- step.py `clip_gradients`: every leaf multiplied by the one global
`clip_scale`. -/
noncomputable def clip_gradients (grads : List (List ℝ)) (max_norm : ℝ) :
    List (List ℝ) :=
  grads.map (fun leaf => leaf.map (fun g => clip_scale grads max_norm * g))

/-- A jax pytree of parameter leaves with named children; the `jtu.keystr` of
a leaf is the concatenation of `.name` segments along its path. -/
inductive PTree where
  | leaf (v : ℚ) : PTree
  | node (children : List (String × PTree)) : PTree

/-- The boolean tree produced by `freeze_components` (the `filter_spec`). -/
inductive BTree where
  | leaf (b : Bool) : BTree
  | node (children : List (String × BTree)) : BTree

/-- Python's substring test `pat in l`, on character lists. -/
def charsHaveSub : List Char → List Char → Bool
  | [], pat => pat.isEmpty
  | a :: t, pat => pat.isPrefixOf (a :: t) || charsHaveSub t pat

/-- Python's substring test `component in keystr` on strings. -/
def strHasSub (s pat : String) : Bool := charsHaveSub s.toList pat.toList

/-- Python runtime errors arising in `freeze_components`. -/
inductive PyErr where
  /-- Models `NameError: name 'freeze' is not defined`. -/
  | nameErrorFreeze
deriving DecidableEq

/-- trainer.py `diff_filter` (the closure inside `Trainer.freeze_components`,
lines 397–407).  The body returns `not freeze` in two branches, but in
trainer.py the name `freeze` is bound nowhere — the `freeze` parameter of the
legacy train.py version was dropped in the refactor while the body kept using
it — so evaluating either of those branches raises `NameError`. -/
def diff_filter (component_names : Option (List String)) (keystr : String) :
    Except PyErr Bool :=
  match component_names with
  | none => .error .nameErrorFreeze
  | some names =>
    if names.any (fun component => strHasSub keystr component) then
      .error .nameErrorFreeze
    else .ok true

mutual

/-- trainer.py `Trainer.freeze_components`:
`jtu.tree_map_with_path(diff_filter, model)`, threading the accumulated
`jtu.keystr` path; the first leaf on which `diff_filter` raises aborts the
traversal with that exception. -/
def freeze_components (component_names : Option (List String)) (path : String) :
    PTree → Except PyErr BTree
  | .leaf _ => (diff_filter component_names path).map .leaf
  | .node cs => (freeze_components_children component_names path cs).map .node

/-- Child traversal of `freeze_components`, in order. -/
def freeze_components_children (component_names : Option (List String))
    (path : String) :
    List (String × PTree) → Except PyErr (List (String × BTree))
  | [] => .ok []
  | (n, t) :: rest => do
    let b ← freeze_components component_names (path ++ "." ++ n) t
    let bs ← freeze_components_children component_names path rest
    pure ((n, b) :: bs)

end

mutual

/-- The legacy src/train.py `freeze_components` (lines 247–264), whose
`diff_filter` closes over a bound `freeze : bool = True` parameter: a leaf
is `not freeze` when `component_names is None` or when its keystr contains
one of the names, and `True` otherwise.  This is the behavior the trainer.py
docstring still describes. -/
def legacy_freeze_components (component_names : Option (List String))
    (freeze : Bool) (path : String) : PTree → BTree
  | .leaf _ =>
    .leaf (match component_names with
      | none => !freeze
      | some names =>
        if names.any (fun component => strHasSub path component) then !freeze
        else true)
  | .node cs => .node (legacy_freeze_components_children component_names freeze path cs)

/-- Child traversal of `legacy_freeze_components`. -/
def legacy_freeze_components_children (component_names : Option (List String))
    (freeze : Bool) (path : String) :
    List (String × PTree) → List (String × BTree)
  | [] => []
  | (n, t) :: rest =>
    (n, legacy_freeze_components component_names freeze (path ++ "." ++ n) t) ::
      legacy_freeze_components_children component_names freeze path rest

end

/-- The `graph_matrix` entry of `cfg['model_args']`: a numpy array, its
nested-list (`tolist`) form, or absent. -/
inductive GraphVal where
  | arr (m : List (List ℚ))
  | lst (m : List (List ℚ))
  | absent
deriving DecidableEq

/-- Embedding of `cfg['model_args']`: the JSON header of a `model.eqx` artifact. -/
structure ModelArgs where
  seed : ℕ
  graph_matrix : GraphVal
  /-- the remaining JSON-safe model hyperparameters -/
  extra : List (String × ℚ)
deriving DecidableEq

/-- The configuration fields the trainer core reads. -/
structure Cfg where
  log : Bool
  quiet : Bool
  num_epochs : ℕ
  log_interval : ℕ
  initial_lr : ℚ
  decay_rate : ℚ
  batch_size : ℕ
  model_args : ModelArgs
deriving DecidableEq

/-- A model's weight leaves, flattened in traversal order ("byte-identical"
weights = equal leaf values). -/
abbrev Model := List ℚ

/-- An optimizer state's leaves, flattened in traversal order. -/
abbrev OptState := List ℚ

/-- The optax gradient-transformation interface (external collaborator,
spec §3: "opaque accumulator keyed structurally to the trainable subtree"):
`init` builds a fresh state for a model's trainable leaves, `update` maps
(grads, state) to (updates, new state).  `optax.adam` is one instance. -/
structure Optimizer where
  init : Model → OptState
  update : Model → OptState → Model × OptState

/-- The mutable training state owned by trainer.py `Trainer`. -/
structure TrainerState where
  cfg : Cfg
  model : Model
  epoch : ℕ
  loss_list : List ℚ
  opt_state : OptState
deriving DecidableEq

/-- On-disk snapshot written by `Trainer.save_state`:
`model.eqx` = JSON header (`model_args`) + serialized weight leaves;
`state.eqx` = JSON header (`{epoch, loss_list}`) + serialized optimizer
leaves.  Serializing a leaf list is modelled as the identity on values. -/
structure Checkpoint where
  model_args : ModelArgs
  model_leaves : Model
  epoch : ℕ
  loss_list : List ℚ
  opt_leaves : OptState
deriving DecidableEq

/-- Models `save_state`'s in-place `tolist()` conversion of a numpy
`graph_matrix` (trainer.py lines 337–339): `model_args` aliases
`self.cfg['model_args']`, so the live config is mutated too. -/
def graph_tolist (ma : ModelArgs) : ModelArgs :=
  match ma.graph_matrix with
  | .arr m => { ma with graph_matrix := .lst m }
  | _ => ma

/-- trainer.py `Trainer.save_state` (its persistent effect, for the epoch or
exception directory chosen by the caller).  Returns the checkpoint written
and the post-call live config (the `graph_matrix` mutation). -/
def save_state (ts : TrainerState) : Checkpoint × Cfg :=
  let model_args := graph_tolist ts.cfg.model_args
  ({ model_args := model_args, model_leaves := ts.model, epoch := ts.epoch,
     loss_list := ts.loss_list, opt_leaves := ts.opt_state },
   { ts.cfg with model_args := model_args })

/-- The `np.array(model_args['graph_matrix'])` reconstruction performed by the
module-level `load_state` whenever the key is present. -/
def graph_toarray (ma : ModelArgs) : ModelArgs :=
  match ma.graph_matrix with
  | .arr m => { ma with graph_matrix := .arr m }
  | .lst m => { ma with graph_matrix := .arr m }
  | .absent => ma

/-- What the module-level `load_state` hands back on success. -/
structure LoadedState where
  cfg : Cfg
  model : Model
  epoch : ℕ
  loss_list : List ℚ
  opt_state : OptState
deriving DecidableEq

/-- The `cfg['model_args'] = model_args` write-back performed by the
module-level `load_state` on the config it was passed, with the
`graph_matrix` array reconstruction. -/
def load_cfg (ckpt : Checkpoint) (cfg : Cfg) : Cfg :=
  { cfg with model_args := graph_toarray ckpt.model_args }

/-- trainer.py module-level `load_state` with `cfg` passed (as
`Trainer.load_state` does; it also writes `cfg['model_args']` back into that
config).  `models.make` is the external factory `mk`;
`eqx.tree_deserialise_leaves` overlays the serialized leaves onto the freshly
built shell and raises unless the leaf structure matches, modelled as a
length check returning `none`.  The optimizer-state shell is rebuilt with
`optim.init` on the restored model before being overlaid. -/
def load_state (O : Optimizer) (mk : Cfg → Model) (ckpt : Checkpoint)
    (cfg : Cfg) : Option LoadedState :=
  let cfg' := load_cfg ckpt cfg
  let shell := mk cfg'
  if shell.length = ckpt.model_leaves.length then
    let model := ckpt.model_leaves
    let opt_shell := O.init model
    if opt_shell.length = ckpt.opt_leaves.length then
      some { cfg := cfg', model := model, epoch := ckpt.epoch,
             loss_list := ckpt.loss_list, opt_state := ckpt.opt_leaves }
    else none
  else none

/-- trainer.py `Trainer.load_state`: on success, overwrite the trainer's
model, epoch, loss list and optimizer state with the loaded values. -/
def trainer_load_state (O : Optimizer) (mk : Cfg → Model) (ts : TrainerState)
    (ckpt : Checkpoint) : Option TrainerState :=
  (load_state O mk ckpt ts.cfg).map fun l =>
    { cfg := l.cfg, model := l.model, epoch := l.epoch,
      loss_list := l.loss_list, opt_state := l.opt_state }

/-- trainer.py `Trainer.__init__` restricted to its state-restoring core:
`continue_from = some ckpt` when `load_last_state` finds a checkpoint
directory (directory discovery is filesystem plumbing).  Lines 136–137 run
unconditionally after the load: the optimizer state is re-created with
`optim.init` on the (loaded or fresh) model, replacing whatever state
`load_state` had just restored. -/
def trainer_init (O : Optimizer) (mk : Cfg → Model) (cfg : Cfg)
    (continue_from : Option Checkpoint) : TrainerState :=
  let loaded : Option TrainerState := continue_from.bind fun ckpt =>
    (load_state O mk ckpt cfg).map fun l =>
      { cfg := l.cfg, model := l.model, epoch := l.epoch,
        loss_list := l.loss_list, opt_state := l.opt_state }
  match loaded with
  | some ts => { ts with opt_state := O.init ts.model }
  | none =>
    { cfg := cfg, model := mk cfg, epoch := 0, loss_list := [],
      opt_state := O.init (mk cfg) }

/-- The state threaded through `start_training`'s epoch loop, with the trace
of `save_state` events: each entry is `(epoch at the save, the loss_list
written into that checkpoint's state.eqx header)`. -/
structure LoopState where
  epoch : ℕ
  loss_list : List ℚ
  saves : List (ℕ × List ℚ)
deriving DecidableEq

/-- One iteration of the `while` body of trainer.py `start_training`
(lines 201–226): increment the epoch, run `_train_epoch` (whose mean loss is
abstracted as `loss_of epoch`), checkpoint when
`cfg['log'] & (epoch % log_interval == 0)` — note the save happens BEFORE the
append — then append the epoch's mean loss to `loss_list`. -/
def start_training_step (loss_of : ℕ → ℚ) (log_interval : ℕ) (log : Bool)
    (s : LoopState) : LoopState :=
  let epoch := s.epoch + 1
  let loss := loss_of epoch
  let saves := if log && (epoch % log_interval == 0)
    then s.saves ++ [(epoch, s.loss_list)] else s.saves
  { epoch := epoch, loss_list := s.loss_list ++ [loss], saves := saves }

/-- The `while (epoch < num_epochs) and (epoch < stop_at)` loop of
`start_training`, fuel-bounded; the epoch strictly increases by 1 each
iteration so `num_epochs` fuel always suffices.  `stop_at = none` models the
default `np.inf`. -/
def start_training_loop (loss_of : ℕ → ℚ) (num_epochs log_interval : ℕ)
    (stop_at : Option ℕ) (log : Bool) : ℕ → LoopState → LoopState
  | 0, s => s
  | fuel + 1, s =>
    if s.epoch < num_epochs &&
        (match stop_at with
          | none => true
          | some st => decide (s.epoch < st)) then
      start_training_loop loss_of num_epochs log_interval stop_at log fuel
        (start_training_step loss_of log_interval log s)
    else s

/-- trainer.py `Trainer.start_training` from a fresh trainer (epoch 0, empty
loss history): run the epoch loop, then write the final checkpoint when
logging is on and the last epoch is off the `log_interval` grid
(lines 229–231). -/
def start_training (loss_of : ℕ → ℚ) (num_epochs log_interval : ℕ)
    (stop_at : Option ℕ) (log : Bool) : LoopState :=
  let s := start_training_loop loss_of num_epochs log_interval stop_at log
    num_epochs { epoch := 0, loss_list := [], saves := [] }
  if log && !(s.epoch % log_interval == 0) then
    { s with saves := s.saves ++ [(s.epoch, s.loss_list)] }
  else s

/-- The checkpoint directory name `f"epoch{epoch:03d}"`. -/
def save_dir_name (epoch : ℕ) : String :=
  "epoch" ++
    (if epoch < 10 then "00" else if epoch < 100 then "0" else "") ++
    toString epoch

/-- The outcome of one batch inside `_train_epoch`: either `make_step`
returned a non-NaN loss, or an exception occurred (any exception, including
the `RuntimeError("NaN loss encountered")` raised on a NaN loss). -/
inductive BatchResult where
  | success (loss : ℚ)
  | failure
deriving DecidableEq

/-- The per-batch exception handling of trainer.py `Trainer._train_epoch`
(lines 258–313), abstracted over the batch outcomes: a successful batch
appends its loss and resets the consecutive-exception counter; a failed
batch is caught (its logging / state-snapshot side effects are not modelled
here) and increments the counter; after every batch the loop re-raises
`RuntimeError` once `consecutive_exceptions >= 3`. -/
def train_epoch_batches :
    ℕ → List ℚ → List BatchResult → Except String (List ℚ)
  | _, losses, [] => .ok losses
  | consec, losses, b :: rest =>
    let next := match b with
      | .success l => (0, losses ++ [l])
      | .failure => (consec + 1, losses)
    if next.1 ≥ 3 then .error "Too many consecutive exceptions"
    else train_epoch_batches next.1 next.2 rest

/-- trainer.py `_train_epoch`'s batch loop started fresh
(`consecutive_exceptions = 0`, `losses = []`). -/
def train_epoch (batches : List BatchResult) : Except String (List ℚ) :=
  train_epoch_batches 0 [] batches

/-- The same loop in the legacy src/train.py `Trainer._train_epoch`
(lines 140–202): identical catch-and-count structure, but the fatal re-raise
fires only at `consecutive_exceptions >= 5`, and the epoch tracks
`total_loss` / `num_batches`, re-computing `average_loss = total_loss /
num_batches` on every iteration with `num_batches > 0` (line 199).  The
final `return average_loss` (line 202) reads a name that was assigned only
if some batch succeeded: an epoch in which every batch failed — without
tripping the 5-failure re-raise first — crashes there with
`UnboundLocalError`, modelled as a distinct `Except.error`. -/
def legacy_train_epoch_batches :
    ℕ → ℕ → ℚ → List BatchResult → Except String ℚ
  | _, num_batches, total, [] =>
    if num_batches = 0 then
      .error "UnboundLocalError: average_loss referenced before assignment"
    else .ok (total / num_batches)
  | consec, num_batches, total, b :: rest =>
    let next := match b with
      | .success l => (0, num_batches + 1, total + l)
      | .failure => (consec + 1, num_batches, total)
    if next.1 ≥ 5 then .error "Too many consecutive exceptions"
    else legacy_train_epoch_batches next.1 next.2.1 next.2.2 rest

/-- Legacy batch loop started fresh. -/
def legacy_train_epoch (batches : List BatchResult) : Except String ℚ :=
  legacy_train_epoch_batches 0 0 0 batches

/-- "k consecutive batch failures occur within the epoch": the batch list
contains a contiguous run of `k` failures. -/
def hasConsecFailures (k : ℕ) (batches : List BatchResult) : Prop :=
  ∃ pre post, batches = pre ++ List.replicate k BatchResult.failure ++ post

/-- The key schedule an epoch consumes: the carried key left at the end of
the epoch, the per-batch sample-key lists, and how many times
`jax.random.split` ran. -/
structure KeySchedule where
  final_key : ℕ
  batch_keys : List (List ℕ)
  split_count : ℕ
deriving DecidableEq

/-- The training-key threading of trainer.py `_train_epoch` (lines 258–266),
abstracted over jax's `split` (external collaborator: `jax.random.split(key,
n)` deterministically derives `n` new keys).  For EACH batch of the epoch the
carried `self.train_key` is split into `batch_size + 1` substreams; `keys[0]`
is carried forward and `keys[1:]` are that batch's per-sample keys. -/
def epoch_key_schedule (split : ℕ → ℕ → List ℕ) (batch_size : ℕ) :
    ℕ → ℕ → KeySchedule
  | key, 0 => { final_key := key, batch_keys := [], split_count := 0 }
  | key, num_batches + 1 =>
    let keys := split key (batch_size + 1)
    let rest := epoch_key_schedule split batch_size (keys.headD 0) num_batches
    { final_key := rest.final_key,
      batch_keys := keys.tail :: rest.batch_keys,
      split_count := rest.split_count + 1 }

/-- The effective epoch bound of `start_training`'s loop condition:
`epoch < num_epochs and epoch < stop_at` is `epoch < loop_bound`. -/
def loop_bound (num_epochs : ℕ) (stop_at : Option ℕ) : ℕ :=
  match stop_at with
  | none => num_epochs
  | some st => min num_epochs st

/-- The consecutive-failure abort predicate of `_train_epoch`'s batch loop,
isolated from the loss bookkeeping: starting from `c` consecutive failures
already seen, does processing the batch list trip the `>= k` re-raise? -/
def consec_abort (k : ℕ) : ℕ → List BatchResult → Bool
  | _, [] => false
  | c, b :: rest =>
    let next := match b with
      | BatchResult.success _ => 0
      | BatchResult.failure => c + 1
    if next ≥ k then true else consec_abort k next rest

/-- A concrete stateful optimizer satisfying the `Optimizer` interface: its
state is the running sum of past gradients, so a freshly initialized state is
observably different from a trained one (as adam's moment estimates are). -/
def accOpt : Optimizer :=
  { init := fun m => m.map (fun _ => 0),
    update := fun g s => (List.zipWith (· + ·) g s, List.zipWith (· + ·) g s) }

/-- A concrete model factory producing a single-leaf shell. -/
def oneLeafMk : Cfg → Model := fun _ => [0]

/-- A concrete configuration for the concrete checks. -/
def cfgW : Cfg :=
  { log := true, quiet := false, num_epochs := 10, log_interval := 5,
    initial_lr := 1 / 100, decay_rate := 9 / 10, batch_size := 4,
    model_args := { seed := 0, graph_matrix := .arr [[1, 2], [3, 4]],
                    extra := [("hidden_size", 16)] } }

/-- A concrete mid-training trainer state: weight leaves `[1]`, loss history
of length 2 at epoch 2, optimizer accumulator `[5]` (≠ the fresh `[0]`). -/
def tsW : TrainerState :=
  { cfg := cfgW, model := [1], epoch := 2, loss_list := [3, 4],
    opt_state := [5] }

/-- A concrete jax-style `split`: deterministic, `n` distinct keys. -/
def splitW : ℕ → ℕ → List ℕ :=
  fun k n => (List.range n).map (fun i => k * 1000 + i + 1)

/-- The target list of a physically-consistent concrete check. -/
def tlW : List String := ["ssc", "flux", "usgs_q"]

/-- A concrete de-normalized prediction matrix (column-major) that is
perfectly consistent: converted, `ssc * q = 1 = flux` in kg/day. -/
def ypdW : List (List ℚ) := [[1000000], [1102], [1 / 86400000]]

/-- A concrete two-component parameter tree. -/
def treeW : PTree :=
  .node [("head", .node [("weight", .leaf 1), ("bias", .leaf 2)]),
         ("lstm", .node [("weight_ih", .leaf 3)])]

/-- C10: `save_state`'s only effect on the live configuration is the in-place
`tolist()` conversion of a numpy `graph_matrix`: when `graph_matrix` is an
array it becomes the corresponding nested list while every other field (and
the other `model_args` fields) is unchanged, and when it is not an array the
whole config is left untouched. -/
theorem save_state_cfg_frame_effect (ts : TrainerState) :
    (∀ m, ts.cfg.model_args.graph_matrix = GraphVal.arr m →
      ((save_state ts).2.model_args.graph_matrix = GraphVal.lst m ∧
       (save_state ts).2.log = ts.cfg.log ∧
       (save_state ts).2.quiet = ts.cfg.quiet ∧
       (save_state ts).2.num_epochs = ts.cfg.num_epochs ∧
       (save_state ts).2.log_interval = ts.cfg.log_interval ∧
       (save_state ts).2.initial_lr = ts.cfg.initial_lr ∧
       (save_state ts).2.decay_rate = ts.cfg.decay_rate ∧
       (save_state ts).2.batch_size = ts.cfg.batch_size ∧
       (save_state ts).2.model_args.seed = ts.cfg.model_args.seed ∧
       (save_state ts).2.model_args.extra = ts.cfg.model_args.extra)) ∧
    ((∀ m, ts.cfg.model_args.graph_matrix ≠ GraphVal.arr m) →
      (save_state ts).2 = ts.cfg) := by
  constructor
  · intro m hm
    simp [save_state, graph_tolist, hm]
  · intro h
    cases hg : ts.cfg.model_args.graph_matrix with
    | arr m => exact absurd hg (h m)
    | lst m => simp [save_state, graph_tolist, hg]
    | absent => simp [save_state, graph_tolist, hg]

/-- Witness for `save_state_cfg_frame_effect` at the concrete state `tsW`,
whose `graph_matrix` is the array `[[1, 2], [3, 4]]`. -/
theorem save_state_cfg_frame_effect_witness :
    tsW.cfg.model_args.graph_matrix = GraphVal.arr [[1, 2], [3, 4]] ∧
    ((save_state tsW).2.model_args.graph_matrix = GraphVal.lst [[1, 2], [3, 4]] ∧
     (save_state tsW).2.log = tsW.cfg.log ∧
     (save_state tsW).2.quiet = tsW.cfg.quiet ∧
     (save_state tsW).2.num_epochs = tsW.cfg.num_epochs ∧
     (save_state tsW).2.log_interval = tsW.cfg.log_interval ∧
     (save_state tsW).2.initial_lr = tsW.cfg.initial_lr ∧
     (save_state tsW).2.decay_rate = tsW.cfg.decay_rate ∧
     (save_state tsW).2.batch_size = tsW.cfg.batch_size ∧
     (save_state tsW).2.model_args.seed = tsW.cfg.model_args.seed ∧
     (save_state tsW).2.model_args.extra = tsW.cfg.model_args.extra) :=
  ⟨rfl, (save_state_cfg_frame_effect tsW).1 [[1, 2], [3, 4]] rfl⟩

/-- C1 counterexample: constructing a `Trainer` with `continue_from` on a
just-saved checkpoint restores model weights, epoch and loss history, but
NOT the optimizer state — `__init__` re-runs `optim.init` after the load
(trainer.py lines 136–137) — and the restored optimizer's next update
differs from the pre-save optimizer's on the same gradients. -/
theorem trainer_init_continue_resets_opt_cex :
    (trainer_init accOpt oneLeafMk (save_state tsW).2
        (some (save_state tsW).1)).model = tsW.model ∧
    (trainer_init accOpt oneLeafMk (save_state tsW).2
        (some (save_state tsW).1)).epoch = tsW.epoch ∧
    (trainer_init accOpt oneLeafMk (save_state tsW).2
        (some (save_state tsW).1)).loss_list = tsW.loss_list ∧
    (trainer_init accOpt oneLeafMk (save_state tsW).2
        (some (save_state tsW).1)).opt_state ≠ tsW.opt_state ∧
    (accOpt.update tsW.model
        (trainer_init accOpt oneLeafMk (save_state tsW).2
          (some (save_state tsW).1)).opt_state).1
      ≠ (accOpt.update tsW.model tsW.opt_state).1 := by
  refine ⟨rfl, rfl, rfl, ?_, ?_⟩
  · show ¬ ([(0 : ℚ)] = [5])
    norm_num
  · show ¬ ([(1 : ℚ) + 0] = [1 + 5])
    norm_num

/-- C1 (amended): `save_state` then `Trainer.load_state` on the written
checkpoint restores the exact prior training state: identical model leaves
("byte-identical weights"), the saved epoch and loss history, and the very
same optimizer state — hence the same next update on any gradients.  The
hypotheses say the rebuilt model shell and optimizer shell have the shapes
of the saved leaf streams, which is what `eqx.tree_deserialise_leaves`
requires to succeed. -/
theorem load_state_roundtrip_exact (O : Optimizer) (mk : Cfg → Model)
    (ts : TrainerState)
    (hm : (mk (load_cfg (save_state ts).1 (save_state ts).2)).length
        = ts.model.length)
    (ho : (O.init ts.model).length = ts.opt_state.length) :
    trainer_load_state O mk { ts with cfg := (save_state ts).2 }
        (save_state ts).1
      = some { cfg := load_cfg (save_state ts).1 (save_state ts).2,
               model := ts.model, epoch := ts.epoch,
               loss_list := ts.loss_list, opt_state := ts.opt_state } ∧
    ∀ grads,
      Option.map (fun t : TrainerState => O.update grads t.opt_state)
          (trainer_load_state O mk { ts with cfg := (save_state ts).2 }
            (save_state ts).1)
        = some (O.update grads ts.opt_state) := by
  have hmain : trainer_load_state O mk { ts with cfg := (save_state ts).2 }
      (save_state ts).1
      = some { cfg := load_cfg (save_state ts).1 (save_state ts).2,
               model := ts.model, epoch := ts.epoch,
               loss_list := ts.loss_list, opt_state := ts.opt_state } := by
    simp only [trainer_load_state, load_state, save_state] at hm ⊢
    rw [if_pos hm, if_pos ho]
    rfl
  exact ⟨hmain, fun grads => by rw [hmain]; rfl⟩

/-- Witness for `load_state_roundtrip_exact` at `tsW` with the concrete
factory and optimizer. -/
theorem load_state_roundtrip_exact_witness :
    ((oneLeafMk (load_cfg (save_state tsW).1 (save_state tsW).2)).length
        = tsW.model.length) ∧
    ((accOpt.init tsW.model).length = tsW.opt_state.length) ∧
    (trainer_load_state accOpt oneLeafMk { tsW with cfg := (save_state tsW).2 }
        (save_state tsW).1
      = some { cfg := load_cfg (save_state tsW).1 (save_state tsW).2,
               model := tsW.model, epoch := tsW.epoch,
               loss_list := tsW.loss_list, opt_state := tsW.opt_state } ∧
     ∀ grads,
       Option.map (fun t : TrainerState => accOpt.update grads t.opt_state)
           (trainer_load_state accOpt oneLeafMk
             { tsW with cfg := (save_state tsW).2 } (save_state tsW).1)
         = some (accOpt.update grads tsW.opt_state)) :=
  ⟨rfl, rfl, load_state_roundtrip_exact accOpt oneLeafMk tsW rfl rfl⟩

/-- C6 counterexample: in an epoch of 2 batches the training key is split
twice — once per batch — not "once per epoch": the split counter is 2 ≠ 1
and there is one fresh sample-key list per batch. -/
theorem key_split_once_per_epoch_cex :
    (epoch_key_schedule splitW 2 7 2).split_count = 2 ∧
    (epoch_key_schedule splitW 2 7 2).batch_keys.length = 2 ∧
    (2 : ℕ) ≠ 1 := by
  decide

/-- C6 (amended): for every batch of the epoch the carried key is split into
`batch_size + 1` substreams — `num_batches` splits per epoch in total — of
which the first is carried forward and the remaining `batch_size` are that
batch's per-sample keys; the whole schedule is a pure function of the
initial key, the batch count and `batch_size`, so re-running with the same
seed and batch order reproduces it exactly. -/
theorem key_split_per_batch_schedule (split : ℕ → ℕ → List ℕ)
    (batch_size key num_batches : ℕ)
    (hsplit : ∀ k n, (split k n).length = n) :
    (epoch_key_schedule split batch_size key num_batches).split_count
        = num_batches ∧
    (epoch_key_schedule split batch_size key num_batches).batch_keys.length
        = num_batches ∧
    ∀ ks ∈ (epoch_key_schedule split batch_size key num_batches).batch_keys,
      ks.length = batch_size := by
  induction num_batches generalizing key with
  | zero => simp [epoch_key_schedule]
  | succ n ih =>
    refine ⟨?_, ?_, ?_⟩
    · simp only [epoch_key_schedule]
      simp [(ih _).1]
    · simp only [epoch_key_schedule]
      simp [(ih _).2.1]
    · simp only [epoch_key_schedule]
      intro ks hks
      rcases List.mem_cons.mp hks with h | h
      · subst h
        rw [List.length_tail, hsplit]
        omega
      · exact (ih _).2.2 ks h

/-- Witness for `key_split_per_batch_schedule` with the concrete `splitW`,
`batch_size = 2`, initial key 7 and 3 batches. -/
theorem key_split_per_batch_schedule_witness :
    (∀ k n, (splitW k n).length = n) ∧
    ((epoch_key_schedule splitW 2 7 3).split_count = 3 ∧
     (epoch_key_schedule splitW 2 7 3).batch_keys.length = 3 ∧
     ∀ ks ∈ (epoch_key_schedule splitW 2 7 3).batch_keys, ks.length = 2) :=
  ⟨fun k n => by simp [splitW],
   key_split_per_batch_schedule splitW 2 7 3 (fun k n => by simp [splitW])⟩

/-- C3: evaluating trainer.py's `freeze_components` on a concrete model
tree.  With a non-empty name list matching a component it raises `NameError`
(the body's `not freeze` refers to a name bound nowhere in trainer.py)
instead of freezing the leaf; with the default empty list it completes and
marks every leaf trainable; the legacy train.py version — whose behavior the
trainer.py docstring still describes — marks the matching leaf `False` and
every other leaf `True`. -/
theorem freeze_components_name_error_eval :
    freeze_components (some ["lstm"]) "" treeW = .error .nameErrorFreeze ∧
    freeze_components (some []) "" treeW =
      .ok (.node [("head", .node [("weight", .leaf true), ("bias", .leaf true)]),
                  ("lstm", .node [("weight_ih", .leaf true)])]) ∧
    legacy_freeze_components (some ["lstm"]) true "" treeW =
      .node [("head", .node [("weight", .leaf true), ("bias", .leaf true)]),
             ("lstm", .node [("weight_ih", .leaf false)])] := by
  refine ⟨?_, ?_, ?_⟩ <;> rfl

/-- C2 counterexample: in the legacy src/train.py `_train_epoch` (one of the
two cited training-loop variants) an epoch with one successful batch
followed by 3 consecutive batch failures completes and returns normally —
no fatal `RuntimeError` is raised at the third failure, since the legacy
threshold is `>= 5`, not 3 (and `average_loss` is bound by the success, so
the unbound-name return crash does not fire either). -/
theorem legacy_three_failures_no_abort_cex :
    hasConsecFailures 3
      [BatchResult.success 1, .failure, .failure, .failure] ∧
    ∃ q, legacy_train_epoch
        [BatchResult.success 1, .failure, .failure, .failure] = .ok q :=
  ⟨⟨[BatchResult.success 1], [], rfl⟩, ⟨_, rfl⟩⟩

lemma window_le_length {k : ℕ} {l : List BatchResult}
    (h : hasConsecFailures k l) : k ≤ l.length := by
  obtain ⟨pre, post, rfl⟩ := h
  simp [List.length_append, List.length_replicate]
  omega

lemma window_past_success (k : ℕ) (x : ℚ) (t : List BatchResult) :
    ∀ c, c < k → ∀ pre post : List BatchResult,
      pre ++ List.replicate k BatchResult.failure ++ post
        = List.replicate c BatchResult.failure ++ BatchResult.success x :: t →
      hasConsecFailures k t := by
  intro c
  induction c with
  | zero =>
    intro hc pre post heq
    cases k with
    | zero => omega
    | succ m =>
      cases pre with
      | nil =>
        simp only [List.nil_append, List.replicate_zero, List.replicate_succ,
          List.cons_append] at heq
        exact absurd (List.head_eq_of_cons_eq heq) (by simp)
      | cons p pre' =>
        simp only [List.replicate_zero, List.nil_append, List.cons_append] at heq
        exact ⟨pre', post, (List.tail_eq_of_cons_eq heq).symm⟩
  | succ c ih =>
    intro hc pre post heq
    cases pre with
    | nil =>
      -- the window would have to start inside the failure prefix and cover
      -- the success element at position c+1 < k: impossible.
      have hsplit : List.replicate k BatchResult.failure
          = List.replicate (c + 1) BatchResult.failure
            ++ List.replicate (k - (c + 1)) BatchResult.failure := by
        rw [← List.replicate_add]
        congr 1
        omega
      rw [List.nil_append, hsplit, List.append_assoc] at heq
      have htail := List.append_cancel_left heq
      obtain ⟨m, hm⟩ : ∃ m, k - (c + 1) = m + 1 := ⟨k - (c + 1) - 1, by omega⟩
      rw [hm, List.replicate_succ, List.cons_append] at htail
      exact absurd (List.head_eq_of_cons_eq htail) (by simp)
    | cons p pre' =>
      rw [List.replicate_succ, List.cons_append, List.cons_append,
        List.append_assoc] at heq
      have := List.tail_eq_of_cons_eq heq
      exact ih (by omega) pre' post (by simpa [List.append_assoc] using this)

lemma window_replicate_success_cons (k c : ℕ) (hk : 0 < k) (hc : c < k)
    (x : ℚ) (t : List BatchResult) :
    hasConsecFailures k
        (List.replicate c BatchResult.failure ++ BatchResult.success x :: t)
      ↔ hasConsecFailures k t := by
  constructor
  · rintro ⟨pre, post, heq⟩
    exact window_past_success k x t c hc pre post heq.symm
  · rintro ⟨pre, post, rfl⟩
    exact ⟨List.replicate c BatchResult.failure ++ BatchResult.success x :: pre,
      post, by simp [List.append_assoc]⟩

lemma consec_abort_iff_window (k : ℕ) (hk : 0 < k) :
    ∀ (l : List BatchResult) (c : ℕ), c < k →
      (consec_abort k c l = true
        ↔ hasConsecFailures k (List.replicate c BatchResult.failure ++ l)) := by
  intro l
  induction l with
  | nil =>
    intro c hc
    simp only [consec_abort]
    constructor
    · intro h
      exact absurd h (by simp)
    · intro h
      have := window_le_length h
      simp [List.length_append, List.length_replicate] at this
      omega
  | cons b rest ih =>
    intro c hc
    cases b with
    | failure =>
      have hshift : List.replicate c BatchResult.failure
            ++ BatchResult.failure :: rest
          = List.replicate (c + 1) BatchResult.failure ++ rest := by
        rw [List.replicate_succ', List.append_assoc]
        rfl
      rw [hshift]
      simp only [consec_abort]
      by_cases habort : c + 1 ≥ k
      · have hck : c + 1 = k := by omega
        rw [if_pos (by omega)]
        constructor
        · intro _
          exact ⟨[], rest, by rw [hck]; rfl⟩
        · intro _
          rfl
      · rw [if_neg (by omega)]
        exact ih (c + 1) (by omega)
    | success v =>
      simp only [consec_abort]
      rw [if_neg (by omega)]
      rw [ih 0 hk]
      simp only [List.replicate_zero, List.nil_append]
      exact (window_replicate_success_cons k c hk hc v rest).symm

lemma train_epoch_batches_abort_iff :
    ∀ (l : List BatchResult) (c : ℕ) (losses : List ℚ),
      (∃ e, train_epoch_batches c losses l = .error e)
        ↔ consec_abort 3 c l = true := by
  intro l
  induction l with
  | nil =>
    intro c losses
    simp [train_epoch_batches, consec_abort]
  | cons b rest ih =>
    intro c losses
    cases b with
    | success v =>
      simp only [train_epoch_batches, consec_abort]
      rw [if_neg (by omega), if_neg (by omega)]
      exact ih 0 (losses ++ [v])
    | failure =>
      simp only [train_epoch_batches, consec_abort]
      by_cases h : c + 1 ≥ 3
      · rw [if_pos h, if_pos h]
        simp
      · rw [if_neg h, if_neg h]
        exact ih (c + 1) losses

lemma legacy_fatal_iff :
    ∀ (l : List BatchResult) (c n : ℕ) (t : ℚ),
      (legacy_train_epoch_batches c n t l
          = .error "Too many consecutive exceptions")
        ↔ consec_abort 5 c l = true := by
  intro l
  induction l with
  | nil =>
    intro c n t
    simp only [legacy_train_epoch_batches, consec_abort]
    constructor
    · intro h
      by_cases hn : n = 0
      · rw [if_pos hn] at h
        simp only [Except.error.injEq] at h
        exact absurd h (by decide)
      · rw [if_neg hn] at h
        exact Except.noConfusion h
    · intro h
      simp at h
  | cons b rest ih =>
    intro c n t
    cases b with
    | success v =>
      simp only [legacy_train_epoch_batches, consec_abort]
      rw [if_neg (by omega), if_neg (by omega)]
      exact ih 0 (n + 1) (t + v)
    | failure =>
      simp only [legacy_train_epoch_batches, consec_abort]
      by_cases h : c + 1 ≥ 5
      · rw [if_pos h, if_pos h]
        simp
      · rw [if_neg h, if_neg h]
        exact ih (c + 1) n t

lemma legacy_abort_iff :
    ∀ (l : List BatchResult) (c n : ℕ) (t : ℚ),
      (∃ e, legacy_train_epoch_batches c n t l = .error e)
        ↔ (consec_abort 5 c l = true ∨
            (n = 0 ∧ ∀ b ∈ l, b = BatchResult.failure)) := by
  intro l
  induction l with
  | nil =>
    intro c n t
    simp only [legacy_train_epoch_batches, consec_abort]
    by_cases hn : n = 0
    · rw [if_pos hn]
      simp [hn]
    · rw [if_neg hn]
      simp [hn]
  | cons b rest ih =>
    intro c n t
    cases b with
    | success v =>
      simp only [legacy_train_epoch_batches, consec_abort]
      rw [if_neg (by omega), if_neg (by omega)]
      rw [ih 0 (n + 1) (t + v)]
      simp
    | failure =>
      simp only [legacy_train_epoch_batches, consec_abort]
      by_cases h : c + 1 ≥ 5
      · rw [if_pos h, if_pos h]
        simp
      · rw [if_neg h, if_neg h]
        rw [ih (c + 1) n t]
        simp

/-- C2 (amended): per-batch exceptions are caught and counted.  In
trainer.py, `_train_epoch` raises the fatal `RuntimeError` exactly when the
epoch's batch outcomes contain a run of 3 consecutive failures, and fewer
than 3 consecutive failures never abort it.  In the legacy src/train.py
loop the fatal `RuntimeError` fires exactly at a run of 5 consecutive
failures; in addition, an epoch in which every batch failed aborts even
below that threshold — `return average_loss` raises `UnboundLocalError`
when no batch ever succeeded — so the legacy loop escapes with some
exception iff a 5-run occurs or the epoch had no successful batch. -/
theorem consecutive_failure_abort_thresholds (batches : List BatchResult) :
    ((∃ e, train_epoch batches = .error e) ↔ hasConsecFailures 3 batches) ∧
    (legacy_train_epoch batches = .error "Too many consecutive exceptions"
      ↔ hasConsecFailures 5 batches) ∧
    ((∃ e, legacy_train_epoch batches = .error e)
      ↔ (hasConsecFailures 5 batches ∨
          ∀ b ∈ batches, b = BatchResult.failure)) := by
  have h3 := consec_abort_iff_window 3 (by omega) batches 0 (by omega)
  have h5 := consec_abort_iff_window 5 (by omega) batches 0 (by omega)
  simp only [List.replicate_zero, List.nil_append] at h3 h5
  refine ⟨?_, ?_, ?_⟩
  · rw [train_epoch, train_epoch_batches_abort_iff batches 0 [], h3]
  · rw [legacy_train_epoch, legacy_fatal_iff batches 0 0 0, h5]
  · rw [legacy_train_epoch, legacy_abort_iff batches 0 0 0, h5]
    simp

/-- Witness for `consecutive_failure_abort_thresholds` at a concrete
three-failure epoch. -/
theorem consecutive_failure_abort_thresholds_witness :
    ((∃ e, train_epoch [BatchResult.failure, BatchResult.failure,
        BatchResult.failure] = .error e)
      ↔ hasConsecFailures 3 [BatchResult.failure, BatchResult.failure,
          BatchResult.failure]) ∧
    (legacy_train_epoch [BatchResult.failure, BatchResult.failure,
        BatchResult.failure] = .error "Too many consecutive exceptions"
      ↔ hasConsecFailures 5 [BatchResult.failure, BatchResult.failure,
          BatchResult.failure]) ∧
    ((∃ e, legacy_train_epoch [BatchResult.failure, BatchResult.failure,
        BatchResult.failure] = .error e)
      ↔ (hasConsecFailures 5 [BatchResult.failure, BatchResult.failure,
          BatchResult.failure] ∨
          ∀ b ∈ [BatchResult.failure, BatchResult.failure,
            BatchResult.failure], b = BatchResult.failure)) :=
  consecutive_failure_abort_thresholds
    [BatchResult.failure, BatchResult.failure, BatchResult.failure]

lemma start_training_loop_inv (loss_of : ℕ → ℚ) (nE I : ℕ)
    (stop_at : Option ℕ) (log : Bool) :
    ∀ (fuel : ℕ) (s : LoopState),
      s.loss_list.length = s.epoch →
      (∀ p ∈ s.saves, 1 ≤ p.1 ∧
        p.2.length = (if p.1 % I = 0 then p.1 - 1 else p.1)) →
      ((start_training_loop loss_of nE I stop_at log fuel s).loss_list.length
          = (start_training_loop loss_of nE I stop_at log fuel s).epoch ∧
       ∀ p ∈ (start_training_loop loss_of nE I stop_at log fuel s).saves,
          1 ≤ p.1 ∧ p.2.length = (if p.1 % I = 0 then p.1 - 1 else p.1)) := by
  intro fuel
  induction fuel with
  | zero =>
    intro s h1 h2
    simp only [start_training_loop]
    exact ⟨h1, h2⟩
  | succ f ih =>
    intro s h1 h2
    simp only [start_training_loop]
    split
    · apply ih
      · simp [start_training_step, h1]
      · intro p hp
        simp only [start_training_step] at hp
        by_cases hc : (log && ((s.epoch + 1) % I == 0)) = true
        · rw [if_pos hc] at hp
          rcases List.mem_append.mp hp with h' | h'
          · exact h2 p h'
          · have hp' : p = (s.epoch + 1, s.loss_list) := by simpa using h'
            subst hp'
            have hmod : (s.epoch + 1) % I = 0 := by
              have := (Bool.and_eq_true _ _).mp hc
              simpa using this.2
            refine ⟨by omega, ?_⟩
            simp [hmod, h1]
        · rw [if_neg hc] at hp
          exact h2 p hp
    · exact ⟨h1, h2⟩

/-- C7 (amended): from a fresh start the in-memory record satisfies
`len(loss_list) = epoch` at every loop boundary and at the end of training,
but NOT inside every checkpoint: a periodic checkpoint (taken when
`epoch % log_interval == 0`, before the append) stores a loss history of
length `epoch - 1`, while the final off-grid checkpoint (whose epoch is not
on the interval) stores length `epoch`. -/
theorem loss_history_checkpoint_lengths (loss_of : ℕ → ℚ)
    (num_epochs log_interval : ℕ) (stop_at : Option ℕ) (log : Bool) :
    (start_training loss_of num_epochs log_interval stop_at log).loss_list.length
      = (start_training loss_of num_epochs log_interval stop_at log).epoch ∧
    ∀ p ∈ (start_training loss_of num_epochs log_interval stop_at log).saves,
      1 ≤ p.1 ∧
      p.2.length = (if p.1 % log_interval = 0 then p.1 - 1 else p.1) := by
  have h := start_training_loop_inv loss_of num_epochs log_interval stop_at log
    num_epochs { epoch := 0, loss_list := [], saves := [] } rfl (by simp)
  simp only [start_training]
  generalize hL : start_training_loop loss_of num_epochs log_interval stop_at
    log num_epochs { epoch := 0, loss_list := [], saves := [] } = L at h ⊢
  obtain ⟨h1, h2⟩ := h
  by_cases hc : (log && !(L.epoch % log_interval == 0)) = true
  · rw [if_pos hc]
    refine ⟨by simpa using h1, ?_⟩
    intro p hp
    rcases List.mem_append.mp hp with h' | h'
    · exact h2 p h'
    · have hp' : p = (L.epoch, L.loss_list) := by simpa using h'
      subst hp'
      have hmod : L.epoch % log_interval ≠ 0 := by
        have := (Bool.and_eq_true _ _).mp hc
        simpa using this.2
      have hz : L.epoch ≠ 0 := by
        intro h0
        rw [h0] at hmod
        exact hmod (Nat.zero_mod _)
      exact ⟨by omega, by rw [if_neg hmod]; exact h1⟩
  · rw [if_neg hc]
    exact ⟨h1, h2⟩

/-- C7 counterexample: a logged run with `num_epochs = 5`, `log_interval = 5`
writes its (only) checkpoint at epoch 5 with a loss history of length 4, not
5 — `save_state` runs before the epoch's loss is appended — falsifying
`len(loss_history) == epoch` for checkpoint contents. -/
theorem checkpoint_loss_history_len_cex :
    (start_training (fun _ => (0 : ℚ)) 5 5 none true).saves.map
        (fun p => (p.1, p.2.length)) = [(5, 4)] ∧
    (4 : ℕ) ≠ 5 := by
  constructor
  · rfl
  · decide

/-- Witness for `loss_history_checkpoint_lengths` on a concrete 7-epoch
logged run with interval 5. -/
theorem loss_history_checkpoint_lengths_witness :
    (start_training (fun _ => (0 : ℚ)) 7 5 none true).loss_list.length
      = (start_training (fun _ => (0 : ℚ)) 7 5 none true).epoch ∧
    ∀ p ∈ (start_training (fun _ => (0 : ℚ)) 7 5 none true).saves,
      1 ≤ p.1 ∧ p.2.length = (if p.1 % 5 = 0 then p.1 - 1 else p.1) :=
  loss_history_checkpoint_lengths (fun _ => 0) 7 5 none true

lemma loop_cond_eq (nE : ℕ) (stop_at : Option ℕ) (s : LoopState) :
    (s.epoch < nE && (match stop_at with
        | none => true
        | some st => decide (s.epoch < st)))
      = decide (s.epoch < loop_bound nE stop_at) := by
  cases stop_at with
  | none => simp [loop_bound]
  | some st =>
    by_cases h1 : s.epoch < nE <;> by_cases h2 : s.epoch < st <;>
      simp [loop_bound, Nat.lt_min, h1, h2]

lemma start_training_loop_closed (loss_of : ℕ → ℚ) (nE I : ℕ)
    (stop_at : Option ℕ) (log : Bool) :
    ∀ (fuel : ℕ) (s : LoopState), loop_bound nE stop_at ≤ s.epoch + fuel →
      ((start_training_loop loss_of nE I stop_at log fuel s).epoch
          = max s.epoch (loop_bound nE stop_at) ∧
       (start_training_loop loss_of nE I stop_at log fuel s).loss_list
          = s.loss_list ++ (List.range' (s.epoch + 1)
              (loop_bound nE stop_at - s.epoch)).map loss_of ∧
       (start_training_loop loss_of nE I stop_at log fuel s).saves.map Prod.fst
          = s.saves.map Prod.fst ++ (List.range' (s.epoch + 1)
              (loop_bound nE stop_at - s.epoch)).filter
                (fun e => log && (e % I == 0))) := by
  intro fuel
  induction fuel with
  | zero =>
    intro s hf
    have hB : loop_bound nE stop_at - s.epoch = 0 := by omega
    have hmax : max s.epoch (loop_bound nE stop_at) = s.epoch :=
      max_eq_left (by omega)
    simp [start_training_loop, hB, hmax]
  | succ f ih =>
    intro s hf
    simp only [start_training_loop]
    rw [loop_cond_eq]
    by_cases hlt : s.epoch < loop_bound nE stop_at
    · rw [if_pos (decide_eq_true hlt)]
      have hstep : (start_training_step loss_of I log s).epoch = s.epoch + 1 := rfl
      obtain ⟨ih1, ih2, ih3⟩ := ih (start_training_step loss_of I log s)
        (by rw [hstep]; omega)
      have hBe : loop_bound nE stop_at - s.epoch
          = (loop_bound nE stop_at - (s.epoch + 1)) + 1 := by omega
      refine ⟨?_, ?_, ?_⟩
      · rw [ih1, hstep]
        omega
      · rw [ih2, hBe, List.range'_succ]
        simp only [start_training_step, List.map_cons]
        simp [List.append_assoc]
      · rw [ih3, hBe, List.range'_succ]
        simp only [start_training_step]
        by_cases hc : (log && ((s.epoch + 1) % I == 0)) = true
        · rw [if_pos hc, List.filter_cons, if_pos hc]
          simp [List.append_assoc]
        · rw [if_neg hc, List.filter_cons, if_neg hc]
    · rw [if_neg (by simpa using hlt)]
      have hB : loop_bound nE stop_at - s.epoch = 0 := by omega
      have hmax : max s.epoch (loop_bound nE stop_at) = s.epoch :=
        max_eq_left (by omega)
      simp [hB, hmax]

lemma start_training_closed (loss_of : ℕ → ℚ) (nE I : ℕ) :
    (start_training loss_of nE I none true).epoch = nE ∧
    (start_training loss_of nE I none true).loss_list
      = (List.range' 1 nE).map loss_of ∧
    (start_training loss_of nE I none true).saves.map Prod.fst
      = (List.range' 1 nE).filter (fun e => e % I == 0)
          ++ (if nE % I == 0 then [] else [nE]) ∧
    ∀ st, (start_training loss_of nE I (some st) true).epoch = min nE st := by
  have hnone := start_training_loop_closed loss_of nE I none true nE
    { epoch := 0, loss_list := [], saves := [] } (by simp [loop_bound])
  simp only [loop_bound] at hnone
  obtain ⟨he, hl, hs⟩ := hnone
  rw [Nat.zero_max] at he
  simp only [List.map_nil, List.nil_append, Nat.sub_zero, Nat.zero_add,
    Bool.true_and] at hl hs
  refine ⟨?_, ?_, ?_, ?_⟩
  · simp only [start_training]
    generalize hL : start_training_loop loss_of nE I none true nE
      { epoch := 0, loss_list := [], saves := [] } = L at he ⊢
    split <;> simpa using he
  · simp only [start_training]
    generalize hL : start_training_loop loss_of nE I none true nE
      { epoch := 0, loss_list := [], saves := [] } = L at hl ⊢
    split <;> simpa using hl
  · simp only [start_training]
    generalize hL : start_training_loop loss_of nE I none true nE
      { epoch := 0, loss_list := [], saves := [] } = L at he hl hs ⊢
    by_cases hmod : (L.epoch % I == 0) = true
    · rw [if_neg (by simp [hmod])]
      rw [hs]
      have hmodn : (nE % I == 0) = true := by rw [← he]; exact hmod
      rw [if_pos hmodn]
      simp
    · rw [if_pos (by simp [hmod])]
      have hmodn : ¬(nE % I == 0) = true := by rw [← he]; exact hmod
      rw [if_neg hmodn]
      simp only [List.map_append, hs, List.map_cons, List.map_nil]
      rw [he]
  · intro st
    have hsome := start_training_loop_closed loss_of nE I (some st) true nE
      { epoch := 0, loss_list := [], saves := [] } (by simp [loop_bound])
    simp only [loop_bound] at hsome
    obtain ⟨he2, _, _⟩ := hsome
    rw [Nat.zero_max] at he2
    simp only [start_training]
    generalize hL : start_training_loop loss_of nE I (some st) true nE
      { epoch := 0, loss_list := [], saves := [] } = L at he2 ⊢
    split <;> simpa using he2

/-- C8: with logging on and `stop_at = ∞` the loop runs while
`epoch < num_epochs` (and, when finite, `epoch < stop_at`), incrementing the
epoch by exactly 1 per iteration and appending one loss per epoch, so the
final epoch is `num_epochs` (resp. `min num_epochs stop_at`); checkpoints are
written exactly at the multiples of `log_interval`, plus one final save when
the last epoch is off the interval.  In particular `num_epochs = 10`,
`log_interval = 5` yields exactly the directories `epoch005` and `epoch010`
and a 10-entry loss history. -/
theorem start_training_schedule_ok (loss_of : ℕ → ℚ)
    (num_epochs log_interval st : ℕ) :
    ((start_training loss_of num_epochs log_interval none true).epoch
        = num_epochs ∧
     (start_training loss_of num_epochs log_interval none true).loss_list
        = (List.range' 1 num_epochs).map loss_of ∧
     (start_training loss_of num_epochs log_interval none true).saves.map
          Prod.fst
        = (List.range' 1 num_epochs).filter (fun e => e % log_interval == 0)
            ++ (if num_epochs % log_interval == 0 then [] else [num_epochs]) ∧
     (start_training loss_of num_epochs log_interval (some st) true).epoch
        = min num_epochs st) ∧
    ((start_training loss_of 10 5 none true).saves.map
        (fun p => save_dir_name p.1) = ["epoch005", "epoch010"] ∧
     (start_training loss_of 10 5 none true).loss_list.length = 10) := by
  obtain ⟨h1, h2, h3, h4⟩ := start_training_closed loss_of num_epochs log_interval
  obtain ⟨g1, g2, g3, g4⟩ := start_training_closed loss_of 10 5
  refine ⟨⟨h1, h2, h3, h4 st⟩, ?_, ?_⟩
  · rw [show (fun p : ℕ × List ℚ => save_dir_name p.1)
        = save_dir_name ∘ Prod.fst from rfl, ← List.map_map, g3]
    rfl
  · rw [g2]
    simp

/-- Witness for `start_training_schedule_ok`: the example scenario itself. -/
theorem start_training_schedule_ok_witness :
    (start_training (fun n => (n : ℚ)) 10 5 none true).saves.map
        (fun p => save_dir_name p.1) = ["epoch005", "epoch010"] ∧
    (start_training (fun n => (n : ℚ)) 10 5 none true).loss_list.length = 10 :=
  (start_training_schedule_ok (fun n => (n : ℚ)) 10 5 0).2

lemma sum_sq_nonneg (grads : List (List ℝ)) : 0 ≤ sum_sq grads := by
  apply List.sum_nonneg
  intro x hx
  obtain ⟨leaf, _, rfl⟩ := List.mem_map.mp hx
  apply List.sum_nonneg
  intro y hy
  obtain ⟨a, _, rfl⟩ := List.mem_map.mp hy
  exact sq_nonneg a

lemma sum_sq_smul (grads : List (List ℝ)) (c : ℝ) :
    sum_sq (grads.map (fun leaf => leaf.map (fun g => c * g)))
      = c ^ 2 * sum_sq grads := by
  induction grads with
  | nil => simp [sum_sq]
  | cons leaf rest ih =>
    have hinner : ((leaf.map (fun g => c * g)).map (fun x => x ^ 2)).sum
        = c ^ 2 * ((leaf.map (fun x => x ^ 2)).sum) := by
      induction leaf with
      | nil => simp
      | cons a t iht =>
        simp only [List.map_cons, List.sum_cons, iht]
        ring
    simp only [sum_sq, List.map_cons, List.sum_cons] at ih ⊢
    rw [hinner, ih]
    ring

lemma list_nonneg_sum_zero {l : List ℝ} (hnn : ∀ x ∈ l, 0 ≤ x)
    (hz : l.sum = 0) : ∀ x ∈ l, x = 0 := by
  induction l with
  | nil => intro x hx; cases hx
  | cons a t ih =>
    rw [List.sum_cons] at hz
    have ha : 0 ≤ a := hnn a (by simp)
    have ht : 0 ≤ t.sum := List.sum_nonneg (fun x hx => hnn x (by simp [hx]))
    have ha0 : a = 0 := by linarith
    intro x hx
    rcases List.mem_cons.mp hx with rfl | hx'
    · exact ha0
    · exact ih (fun y hy => hnn y (by simp [hy])) (by linarith) x hx'

lemma sum_sq_zero_entries {grads : List (List ℝ)} (h : sum_sq grads = 0) :
    ∀ leaf ∈ grads, ∀ x ∈ leaf, x = 0 := by
  intro leaf hleaf x hx
  have houter : ∀ v ∈ grads.map (fun leaf => (leaf.map (fun x => x ^ 2)).sum),
      v = 0 := by
    apply list_nonneg_sum_zero _ h
    intro v hv
    obtain ⟨lf, _, rfl⟩ := List.mem_map.mp hv
    exact List.sum_nonneg (fun y hy => by
      obtain ⟨a, _, rfl⟩ := List.mem_map.mp hy
      exact sq_nonneg a)
  have hlsum : (leaf.map (fun x => x ^ 2)).sum = 0 :=
    houter _ (List.mem_map.mpr ⟨leaf, hleaf, rfl⟩)
  have hsq : x ^ 2 = 0 := by
    refine list_nonneg_sum_zero ?_ hlsum (x ^ 2) (List.mem_map.mpr ⟨x, hx, rfl⟩)
    intro y hy
    obtain ⟨a, _, rfl⟩ := List.mem_map.mp hy
    exact sq_nonneg a
  exact pow_eq_zero_iff (by omega) |>.mp hsq

lemma smul_eq_self_of_sum_sq_zero {grads : List (List ℝ)}
    (h : sum_sq grads = 0) (c : ℝ) :
    grads.map (fun leaf => leaf.map (fun g => c * g)) = grads := by
  have hz := sum_sq_zero_entries h
  calc grads.map (fun leaf => leaf.map (fun g => c * g))
      = grads.map (fun leaf => leaf) := by
        apply List.map_congr_left
        intro leaf hleaf
        calc leaf.map (fun g => c * g) = leaf.map (fun g => g) := by
              apply List.map_congr_left
              intro x hx
              rw [hz leaf hleaf x hx]
              simp
          _ = leaf := List.map_id' leaf
    _ = grads := List.map_id' grads

/-- C4: `clip_gradients` multiplies every leaf entry by the one global factor
`min(max_norm / total_norm, 1.0)` where `total_norm` is the L2 norm over all
leaves taken together; the clipped tree's global norm never exceeds the
input's, and whenever `total_norm ≤ max_norm` the gradients come back
unchanged (with `scale = 1` whenever `total_norm` is nonzero; at
`total_norm = 0` the float code also gets `scale = 1.0` via `inf`, and the
all-zero tree is unchanged under any scale). -/
theorem clip_gradients_global_scale_ok (grads : List (List ℝ))
    (max_norm : ℝ) (hpos : 0 < max_norm) :
    clip_gradients grads max_norm
      = grads.map (fun leaf => leaf.map
          (fun g => min (max_norm / total_norm grads) 1 * g)) ∧
    total_norm (clip_gradients grads max_norm) ≤ total_norm grads ∧
    (total_norm grads ≤ max_norm → clip_gradients grads max_norm = grads) ∧
    (0 < total_norm grads → total_norm grads ≤ max_norm →
      clip_scale grads max_norm = 1) := by
  have ht0 : 0 ≤ total_norm grads := Real.sqrt_nonneg _
  have hscale0 : 0 ≤ clip_scale grads max_norm :=
    le_min (div_nonneg hpos.le ht0) zero_le_one
  have hscale1 : clip_scale grads max_norm ≤ 1 := min_le_right _ _
  have hnorm : total_norm (clip_gradients grads max_norm)
      = clip_scale grads max_norm * total_norm grads := by
    unfold total_norm clip_gradients
    rw [sum_sq_smul, Real.sqrt_mul (sq_nonneg _), Real.sqrt_sq hscale0]
  refine ⟨rfl, ?_, ?_, ?_⟩
  · rw [hnorm]
    exact mul_le_of_le_one_left ht0 hscale1
  · intro hle
    by_cases hz : total_norm grads = 0
    · have hS0 : sum_sq grads = 0 := by
        have hle0 : sum_sq grads ≤ 0 := Real.sqrt_eq_zero'.mp hz
        exact le_antisymm hle0 (sum_sq_nonneg grads)
      exact smul_eq_self_of_sum_sq_zero hS0 _
    · have htpos : 0 < total_norm grads := lt_of_le_of_ne ht0 (Ne.symm hz)
      have hsc : clip_scale grads max_norm = 1 :=
        min_eq_right ((one_le_div htpos).mpr hle)
      unfold clip_gradients
      rw [hsc]
      simp
  · intro htpos hle
    exact min_eq_right ((one_le_div htpos).mpr hle)

/-- Witness for `clip_gradients_global_scale_ok` at the concrete gradient
tree `[[3, 4]]` (global norm 5) and `max_norm = 1`. -/
theorem clip_gradients_global_scale_ok_witness :
    (0 : ℝ) < 1 ∧
    (clip_gradients [[3, 4]] 1
        = [[3, 4]].map (fun leaf => leaf.map
            (fun g => min ((1 : ℝ) / total_norm [[3, 4]]) 1 * g)) ∧
     total_norm (clip_gradients [[3, 4]] 1) ≤ total_norm [[3, 4]] ∧
     (total_norm [[3, 4]] ≤ 1 → clip_gradients [[3, 4]] 1 = [[3, 4]]) ∧
     (0 < total_norm [[3, 4]] → total_norm [[3, 4]] ≤ 1 →
       clip_scale [[3, 4]] 1 = 1)) :=
  ⟨by norm_num, clip_gradients_global_scale_ok [[3, 4]] 1 (by norm_num)⟩

lemma except_bind_ok {α β ε : Type} (a : α) (f : α → Except ε β) :
    Except.bind (Except.ok a) f = f a := rfl

lemma except_bind_error {α β ε : Type} (e : ε) (f : α → Except ε β) :
    Except.bind (Except.error e : Except ε α) f = Except.error e := rfl

lemma zipWith3_cons (f : α → β → γ → δ) (a : α) (b : β) (c : γ)
    (as : List α) (bs : List β) (cs : List γ) :
    zipWith3 f (a :: as) (b :: bs) (c :: cs)
      = f a b c :: zipWith3 f as bs cs := rfl

lemma zip_replicate_true_filter (vals : List ℚ) :
    ((vals.zip (List.replicate vals.length true)).filter (fun p => p.2)).map
      (fun p => p.1) = vals := by
  induction vals with
  | nil => rfl
  | cons a t ih =>
    simp only [List.length_cons, List.replicate_succ, List.zip_cons_cons,
      List.filter_cons]
    simpa using ih

lemma meanWhere_all_true {vals : List ℚ} {mask : List Bool}
    (h : mask = List.replicate vals.length true) :
    meanWhere vals mask = meanAll vals := by
  subst h
  simp only [meanWhere, meanAll]
  rw [zip_replicate_true_filter]

lemma mse_loss_all_true (y y_pred : List ℚ) (h : y.length = y_pred.length) :
    mse_loss y y_pred (List.replicate y.length true) = mse_plain y y_pred := by
  have hlen : (List.zipWith (fun a b => (a - b) ^ 2) y y_pred).length
      = y.length := by
    rw [List.length_zipWith, h, min_self]
  unfold mse_loss mse_plain
  apply meanWhere_all_true
  rw [hlen]

lemma mae_loss_all_true (y y_pred : List ℚ) (h : y.length = y_pred.length) :
    mae_loss y y_pred (List.replicate y.length true) = mae_plain y y_pred := by
  have hlen : (List.zipWith (fun a b => |a - b|) y y_pred).length
      = y.length := by
    rw [List.length_zipWith, h, min_self]
  unfold mae_loss mae_plain
  apply meanWhere_all_true
  rw [hlen]

lemma huber_loss_all_true (y y_pred : List ℚ) (h : y.length = y_pred.length) :
    huber_loss y y_pred (List.replicate y.length true) 1
      = huber_plain y y_pred 1 := by
  have hlen : ((List.zipWith (fun a b => a - b) y y_pred).map (fun r =>
      if |r| ≤ (1 : ℚ) then (1 / 2) * r ^ 2
      else 1 * (|r| - (1 / 2) * 1))).length = y.length := by
    rw [List.length_map, List.length_zipWith, h, min_self]
  unfold huber_loss huber_plain
  apply meanWhere_all_true
  rw [hlen]

lemma masked_pred_id {ycol : List (Option ℚ)} {pcol : List ℚ}
    (h1 : ∀ v ∈ ycol, v.isSome = true) (h2 : ycol.length = pcol.length) :
    List.zipWith (fun (v : Option ℚ) p => if v.isSome then p else 0) ycol pcol
      = pcol := by
  induction ycol generalizing pcol with
  | nil =>
    cases pcol with
    | nil => rfl
    | cons q qt => simp at h2
  | cons v t ih =>
    cases pcol with
    | nil => simp at h2
    | cons q qt =>
      have hv := h1 v (by simp)
      simp only [List.zipWith_cons_cons, hv, if_pos]
      rw [ih (fun x hx => h1 x (by simp [hx])) (by simpa using h2)]

lemma isSome_map_replicate {ycol : List (Option ℚ)}
    (h1 : ∀ v ∈ ycol, v.isSome = true) :
    ycol.map (fun v => v.isSome) = List.replicate ycol.length true := by
  induction ycol with
  | nil => rfl
  | cons v t ih =>
    simp only [List.map_cons, List.length_cons, List.replicate_succ,
      h1 v (by simp)]
    rw [ih (fun x hx => h1 x (by simp [hx]))]

lemma target_losses_eq
    (f : List ℚ → List ℚ → List Bool → Option ℚ)
    (fp : List ℚ → List ℚ → Option ℚ)
    (hf : ∀ (col pcol : List ℚ), col.length = pcol.length →
      f col pcol (List.replicate col.length true) = fp col pcol)
    (y : List (List (Option ℚ))) (y_pred : List (List ℚ))
    (h1 : ∀ col ∈ y, ∀ v ∈ col, v.isSome = true)
    (hlen : List.Forall₂ (fun (c : List (Option ℚ)) (p : List ℚ) =>
      c.length = p.length) y y_pred) :
    zipWith3 f (y.map (fun col => col.map (fun v => v.getD 0)))
        (List.zipWith (fun ycol pcol =>
          List.zipWith (fun (v : Option ℚ) p => if v.isSome then p else 0)
            ycol pcol) y y_pred)
        (y.map (fun col => col.map (fun v => v.isSome)))
      = List.zipWith fp (y.map (fun col => col.map (fun v => v.getD 0)))
          y_pred := by
  revert h1
  induction hlen with
  | nil => intro _; rfl
  | @cons c p cs ps hcp htail ih =>
    intro h1
    have hc1 : ∀ v ∈ c, v.isSome = true := h1 c (by simp)
    simp only [List.map_cons, List.zipWith_cons_cons, zipWith3_cons]
    rw [masked_pred_id hc1 hcp, isSome_map_replicate hc1]
    rw [show c.length = (c.map (fun v => v.getD 0)).length from
      (List.length_map _ _).symm]
    rw [hf (c.map (fun v => v.getD 0)) p (by simpa using hcp)]
    rw [ih (fun col hcol => h1 col (by simp [hcol]))]

/-- C5: on a batch whose targets contain no NaN, the masked multi-target
loss of `compute_loss` (zero-filling at invalid positions before the
`where`-masked reduction) equals the plain unmasked reduction of the
selected loss kind — for each of `mse`, `mae`, `huber` (and with identical
`ValueError` behavior on an invalid name), including any agreement term. -/
theorem masked_loss_eq_unmasked_no_nan
    (y : List (List (Option ℚ))) (y_pred : List (List ℚ))
    (denormalize_fn : List (List ℚ) → List (List ℚ)) (loss_name : String)
    (target_weights : List ℚ) (agreement_weight : ℚ) (target : List String)
    (h1 : ∀ col ∈ y, ∀ v ∈ col, v.isSome = true)
    (hlen : List.Forall₂ (fun (c : List (Option ℚ)) (p : List ℚ) =>
      c.length = p.length) y y_pred) :
    compute_loss y y_pred denormalize_fn loss_name target_weights
        agreement_weight target
      = compute_loss_unmasked_spec
          (y.map (fun col => col.map (fun v => v.getD 0))) y_pred
          denormalize_fn loss_name target_weights agreement_weight target := by
  unfold compute_loss compute_loss_unmasked_spec loss_fn_of plain_loss_fn_of
  by_cases hm : loss_name = "mse"
  · rw [if_pos hm, if_pos hm, except_bind_ok, except_bind_ok]
    simp only []
    rw [target_losses_eq mse_loss mse_plain mse_loss_all_true y y_pred h1 hlen]
  · rw [if_neg hm, if_neg hm]
    by_cases hma : loss_name = "mae"
    · rw [if_pos hma, if_pos hma, except_bind_ok, except_bind_ok]
      simp only []
      rw [target_losses_eq mae_loss mae_plain mae_loss_all_true y y_pred h1
        hlen]
    · rw [if_neg hma, if_neg hma]
      by_cases hh : loss_name = "huber"
      · rw [if_pos hh, if_pos hh, except_bind_ok, except_bind_ok]
        simp only []
        rw [target_losses_eq (fun a b m => huber_loss a b m 1)
          (fun a b => huber_plain a b 1)
          (fun col pcol h => huber_loss_all_true col pcol h) y y_pred h1 hlen]
      · rw [if_neg hh, if_neg hh, except_bind_error, except_bind_error]

/-- Witness for `masked_loss_eq_unmasked_no_nan` on a concrete NaN-free
2-sample, 1-target batch with the `mse` loss. -/
theorem masked_loss_eq_unmasked_no_nan_witness :
    (∀ col ∈ [[some (1 : ℚ), some 2]], ∀ v ∈ col, v.isSome = true) ∧
    compute_loss [[some (1 : ℚ), some 2]] [[3, 4]] id "mse" [1] 0 []
      = compute_loss_unmasked_spec [[(1 : ℚ), 2]] [[3, 4]] id "mse" [1] 0 [] :=
  ⟨by decide,
    masked_loss_eq_unmasked_no_nan [[some 1, some 2]] [[3, 4]] id "mse" [1] 0
      [] (by decide)
      (List.Forall₂.cons rfl List.Forall₂.nil)⟩

/-- C9: when the three linked targets are present and the de-normalized
predictions are exactly mass-balance consistent — converted concentration
times converted flow equals converted flux, with nonzero flux so the float
code's denominator is nonzero — `flux_agreement` is exactly zero, and the
agreement-weighted `compute_loss` coincides with the base masked loss for
every positive agreement weight. -/
theorem flux_agreement_consistent_zero
    (y_pred_denorm : List (List ℚ)) (target_list : List String)
    (hs : target_list.contains "ssc" = true)
    (hf : target_list.contains "flux" = true)
    (hq : target_list.contains "usgs_q" = true)
    (hne : y_pred_denorm.getD (target_list.indexOf "ssc") [] ≠ [])
    (hcons : ∀ p ∈ (y_pred_denorm.getD (target_list.indexOf "ssc") []).zip
        ((y_pred_denorm.getD (target_list.indexOf "flux") []).zip
          (y_pred_denorm.getD (target_list.indexOf "usgs_q") [])),
      (p.1 / 1000000) * (p.2.2 * (24 * 3600 * 1000))
          = p.2.1 / (1102 / 1000) / 1000 ∧
        p.2.1 / (1102 / 1000) / 1000 ≠ 0) :
    flux_agreement y_pred_denorm target_list = .ok 0 ∧
    ∀ (y : List (List (Option ℚ))) (y_pred : List (List ℚ))
      (denormalize_fn : List (List ℚ) → List (List ℚ)) (loss_name : String)
      (target_weights : List ℚ) (agreement_weight : ℚ),
      denormalize_fn y_pred = y_pred_denorm → 0 < agreement_weight →
      compute_loss y y_pred denormalize_fn loss_name target_weights
          agreement_weight target_list
        = compute_loss y y_pred denormalize_fn loss_name target_weights 0
            target_list := by
  have hs' : "ssc" ∈ target_list := by simpa using hs
  have hf' : "flux" ∈ target_list := by simpa using hf
  have hq' : "usgs_q" ∈ target_list := by simpa using hq
  have hguard : ¬ ((["ssc", "flux", "usgs_q"] : List String).any
      (fun t => !(target_list.contains t)) = true) := by
    simp [hs', hf', hq']
  have hpen : flux_agreement y_pred_denorm target_list = .ok 0 := by
    simp only [flux_agreement]
    rw [if_neg hguard]
    have hzero : ∀ x ∈ (zipWith3
        (fun s f qq => ((s * qq) - f) / ((s * qq + f) / 2))
        ((y_pred_denorm.getD (target_list.indexOf "ssc") []).map
          (fun v => v / 1000000))
        ((y_pred_denorm.getD (target_list.indexOf "flux") []).map
          (fun v => v / (1102 / 1000) / 1000))
        ((y_pred_denorm.getD (target_list.indexOf "usgs_q") []).map
          (fun v => v * (24 * 3600 * 1000)))).map (fun e => e ^ 2), x = 0 := by
      intro x hx
      obtain ⟨e, he, rfl⟩ := List.mem_map.mp hx
      have he0 : e = 0 := by
        unfold zipWith3 at he
        rw [List.zip_map, List.zip_map, List.map_map] at he
        obtain ⟨⟨a, b, c⟩, hmem, rfl⟩ := List.mem_map.mp he
        obtain ⟨hc1, hc2⟩ := hcons (a, b, c) hmem
        simp only [Function.comp, Prod.map]
        rw [hc1]
        simp
      rw [he0]
      norm_num
    congr 1
    simp only [listMean]
    rw [List.sum_eq_zero hzero, zero_div]
  refine ⟨hpen, ?_⟩
  intro y yp dn name tw aw hdn haw
  simp only [compute_loss]
  cases hsel : loss_fn_of name with
  | error e => rfl
  | ok lf =>
    simp only [except_bind_ok]
    rw [hdn, hpen, if_pos haw, if_neg (lt_irrefl 0), except_bind_ok]
    simp

/-- Witness for `flux_agreement_consistent_zero` on the concrete consistent
prediction matrix `ypdW` with targets `tlW`. -/
theorem flux_agreement_consistent_zero_witness :
    (tlW.contains "ssc" = true) ∧ (tlW.contains "flux" = true) ∧
    (tlW.contains "usgs_q" = true) ∧
    (ypdW.getD (tlW.indexOf "ssc") [] ≠ []) ∧
    (∀ p ∈ (ypdW.getD (tlW.indexOf "ssc") []).zip
        ((ypdW.getD (tlW.indexOf "flux") []).zip
          (ypdW.getD (tlW.indexOf "usgs_q") [])),
      (p.1 / 1000000) * (p.2.2 * (24 * 3600 * 1000))
          = p.2.1 / (1102 / 1000) / 1000 ∧
        p.2.1 / (1102 / 1000) / 1000 ≠ 0) ∧
    (flux_agreement ypdW tlW = .ok 0 ∧
     ∀ (y : List (List (Option ℚ))) (y_pred : List (List ℚ))
       (denormalize_fn : List (List ℚ) → List (List ℚ)) (loss_name : String)
       (target_weights : List ℚ) (agreement_weight : ℚ),
       denormalize_fn y_pred = ypdW → 0 < agreement_weight →
       compute_loss y y_pred denormalize_fn loss_name target_weights
           agreement_weight tlW
         = compute_loss y y_pred denormalize_fn loss_name target_weights 0
             tlW) := by
  have hcons : ∀ p ∈ (ypdW.getD (tlW.indexOf "ssc") []).zip
      ((ypdW.getD (tlW.indexOf "flux") []).zip
        (ypdW.getD (tlW.indexOf "usgs_q") [])),
      (p.1 / 1000000) * (p.2.2 * (24 * 3600 * 1000))
          = p.2.1 / (1102 / 1000) / 1000 ∧
        p.2.1 / (1102 / 1000) / 1000 ≠ 0 := by
    intro p hp
    have hp' : p = ((1000000 : ℚ), ((1102 : ℚ), (1 / 86400000 : ℚ))) := by
      simpa [ypdW, tlW] using hp
    subst hp'
    norm_num
  exact ⟨by decide, by decide, by decide, by decide, hcons,
    flux_agreement_consistent_zero ypdW tlW (by decide) (by decide) (by decide)
      (by decide) hcons⟩

end TssML
